import Mathlib

/-!
# Verification of the YouLoader download-job tracker

Shallow embedding of the core of `src/youtube_downloader.py`: the job
registry (`download_status`), the inline progress parser, the download
worker (`YouTubeDownloader.download_video`), the status-query route
(`get_download_status`) and the download-scheduling route.

Naming convention for job statuses follows the code's literal strings:
the spec's abstract `pending` is the code's `"starting"`, the spec's
`converting` is the code's `"converting to MP3"`, and the spec's
`failed` is the code's `"error"`.

Python floating-point values written into the `progress` field are
modelled by `PyFloat`: an exact rational for finite decimal literals,
plus the `inf`/`-inf`/`nan` tokens accepted by Python's `float()`.
(The decimal strings yt-dlp emits are short, so exact rationals are a
faithful model of `float()` on every input this development touches;
underscore digit separators accepted by CPython are not modelled.)
-/

set_option autoImplicit false

namespace YouLoader

/-- A Python float as stored in the `progress` field: finite values are
kept exactly as rationals; the special `inf`, `-inf`, `nan` values that
`float()` also accepts are separate constructors. -/
inductive PyFloat where
  | finite (q : ℚ)
  | inf
  | ninf
  | nan
  deriving DecidableEq, Repr

/-- The whitespace classes `str.split()` (no argument) splits on, for the
ASCII range: space, tab, newline, carriage return, vertical tab, form feed. -/
def isPySpace (c : Char) : Bool :=
  c = ' ' || c = '\t' || c = '\n' || c = '\r' || c = '\x0b' || c = '\x0c'

/-- Accumulator-based splitter behind `pySplit`; `cur` holds the current
token reversed. -/
def pySplitAux (cur : List Char) : List Char → List (List Char)
  | [] => if cur = [] then [] else [cur.reverse]
  | c :: cs =>
      if isPySpace c then
        if cur = [] then pySplitAux [] cs else cur.reverse :: pySplitAux [] cs
      else pySplitAux (c :: cur) cs

/-- Python's `line.split()`: split on runs of whitespace, dropping empty
pieces. -/
def pySplit (cs : List Char) : List (List Char) := pySplitAux [] cs

/-- Python's substring test `pat in s` on strings, as character lists. -/
def containsSeq (pat cs : List Char) : Bool :=
  (List.range (cs.length + 1)).any fun i => pat.isPrefixOf (cs.drop i)

/-- Numeric value of a digit string (most significant first). -/
def digitsVal (ds : List Char) : ℕ :=
  ds.foldl (fun a c => a * 10 + (c.toNat - 48)) 0

/-- Parse an optional `e`/`E` exponent suffix of a float literal,
returning the exponent's sign and digit block (`(false, [])` when the
literal has no exponent part). -/
def parseExpParts : List Char → Option (Bool × List Char)
  | [] => some (false, [])
  | c :: r =>
      if c = 'e' ∨ c = 'E' then
        match r with
        | '+' :: r2 => if r2 ≠ [] ∧ r2.all Char.isDigit then some (false, r2) else none
        | '-' :: r2 => if r2 ≠ [] ∧ r2.all Char.isDigit then some (true, r2) else none
        | r2 => if r2 ≠ [] ∧ r2.all Char.isDigit then some (false, r2) else none
      else none

/-- Split an unsigned float literal into integer-part digits,
fraction-part digits, exponent sign and exponent digits, requiring at
least one mantissa digit and full consumption of the input. -/
def parseMantissaParts (cs : List Char) : Option (List Char × List Char × Bool × List Char) :=
  let ip := cs.takeWhile Char.isDigit
  let r1 := cs.dropWhile Char.isDigit
  match r1 with
  | '.' :: r2 =>
      let fp := r2.takeWhile Char.isDigit
      let r3 := r2.dropWhile Char.isDigit
      if ip = [] ∧ fp = [] then none
      else (parseExpParts r3).map fun p => (ip, fp, p.1, p.2)
  | _ =>
      if ip = [] then none
      else (parseExpParts r1).map fun p => (ip, [], p.1, p.2)

/-- Exact value of a decimal literal `[-] ip . fp e [±] ed`: the mantissa
digits over a power of ten.  Built with integer arithmetic and a single
`mkRat` so the resulting rational is in canonical form. -/
def decimalVal (neg : Bool) (ip fp : List Char) (expNeg : Bool) (ed : List Char) : ℚ :=
  let m : Int := (digitsVal (ip ++ fp) : Int)
  let m := if neg then -m else m
  let e : Int := (if expNeg then -(digitsVal ed : Int) else (digitsVal ed : Int)) - fp.length
  if 0 ≤ e then mkRat (m * (10 ^ e.toNat : Nat)) 1 else mkRat m (10 ^ (-e).toNat)

/-- The body of `float()` after the optional sign: the case-insensitive
`inf`/`infinity`/`nan` words, or a decimal literal. -/
def pyFloatBody (neg : Bool) (cs : List Char) : Option PyFloat :=
  let low := cs.map Char.toLower
  if low = "inf".toList ∨ low = "infinity".toList then
    some (if neg then .ninf else .inf)
  else if low = "nan".toList then some .nan
  else (parseMantissaParts cs).map fun p => .finite (decimalVal neg p.1 p.2.1 p.2.2.1 p.2.2.2)

/-- Python's `float(s)` on a string: strip surrounding whitespace, read an
optional sign, then the body; `none` models a raised `ValueError`. -/
def pyFloat? (cs : List Char) : Option PyFloat :=
  let t := ((cs.dropWhile isPySpace).reverse.dropWhile isPySpace).reverse
  match t with
  | '+' :: r => pyFloatBody false r
  | '-' :: r => pyFloatBody true r
  | r => pyFloatBody false r

/-- The characters of the download-progress marker `"[download]"`. -/
def markerChars : List Char := "[download]".toList

/-- The progress parser inlined in `download_video` (lines 176–186 of the
source): a line yields an update when it contains `"[download]"` and
`"%"`, and the first whitespace-delimited piece containing `"%"`, with
every `"%"` removed, parses as a Python float.  The `try`/`except: pass`
around the token loop means a parse failure on that first piece aborts
the scan — later pieces are never tried — and yields no update. -/
def parseProgressLine (line : List Char) : Option PyFloat :=
  if containsSeq markerChars line && containsSeq ['%'] line then
    match (pySplit line).find? (fun part => part.contains '%') with
    | some part => pyFloat? (part.filter (· ≠ '%'))
    | none => none
  else none

/-- Spec-side reading of a "percent-sign-suffixed numeric token": the
piece ends in `%` and everything before that final `%` parses as a
float; the value is that parse. -/
def pctNumericVal (t : List Char) : Option PyFloat :=
  match t.getLast? with
  | some '%' => pyFloat? t.dropLast
  | _ => none

/-- The progress parser exactly as the claim words it: a line yields an
update precisely when it contains the `"[download]"` marker together
with a percent-sign-suffixed numeric token, and the value is the first
such numeric token among the whitespace-delimited pieces, left to
right. -/
def claimParse (line : List Char) : Option PyFloat :=
  if containsSeq markerChars line then
    ((pySplit line).filterMap pctNumericVal).head?
  else none

/-- The amended description of the parser: a line yields an update
precisely when it contains the `"[download]"` marker and its first
whitespace-delimited piece containing a `%` sign, with every `%`
removed, parses as a Python float; the value is that parse.  A parse
failure on that first piece yields no update even if a later piece
would parse. -/
def amendedParse (line : List Char) : Option PyFloat :=
  if containsSeq markerChars line then
    match (pySplit line).find? (fun part => part.contains '%') with
    | some part => pyFloat? (part.filter (· ≠ '%'))
    | none => none
  else none

/-! ## The download worker and the job registry -/

/-- One entry of the `formats` list built by `get_video_info`: only the
fields the worker reads (`format_id` for the lookup, `type` for the
audio/video classification). -/
structure Fmt where
  format_id : String
  type : String
  deriving DecidableEq, Repr

/-- Result of the metadata lookup `get_video_info(url)`: that function
catches its own exceptions and returns either an `{"error": msg}` dict
or the parsed info with its format list. -/
inductive InfoResult where
  | err (msg : String)
  | ok (formats : List Fmt)
  deriving DecidableEq, Repr

/-- Behaviour of the external `yt-dlp` process once the worker reaches
the `subprocess.Popen` call: either an exception is raised after some
lines of output were consumed (`raiseAfter [] msg` is a launch failure),
or the stream ends and `process.wait()` returns an exit code. -/
inductive ProcRun where
  | raiseAfter (lines : List (List Char)) (msg : String)
  | exit (lines : List (List Char)) (returncode : Int)
  deriving DecidableEq, Repr

/-- The lines the process emits before finishing or raising. -/
def ProcRun.lines : ProcRun → List (List Char)
  | .raiseAfter ls _ => ls
  | .exit ls _ => ls

/-- One value of the `download_status` registry: the status string is
always present; `progress` and `message` model the optional dict keys
(`none` = the key is absent from the dict). -/
structure Record where
  status : String
  progress : Option PyFloat := none
  message : Option String := none
  deriving DecidableEq, Repr

/-- The first record the worker writes:
`{"status": "starting", "progress": 0}`. -/
def initialRecord : Record :=
  { status := "starting", progress := some (.finite 0) }

/-- Registry snapshots produced by the progress-monitoring loop: for each
line whose parse succeeds, the loop mutates only the `progress` key of
the current record (`download_status[download_id]["progress"] = percent`),
so each write keeps the status chosen before the loop. -/
def progressWrites (r : Record) : List (List Char) → List Record
  | [] => []
  | l :: ls =>
      match parseProgressLine l with
      | some p =>
          let r' := { r with progress := some p }
          r' :: progressWrites r' ls
      | none => progressWrites r ls

/-- `YouTubeDownloader.download_video(url, format_id, download_id,
convert_to_mp3)` (lines 118–196 of the source), as a function of its
environment: the metadata-lookup result and the process behaviour.
Returns the sequence of records stored under `download_id`, in write
order, together with a flag recording whether control reached the
`subprocess.Popen` call.  The outermost `except` converts any exception
into an `{"status": "error", "message": str(e)}` record. -/
def download_video (info : InfoResult) (format_id : String)
    (convert_to_mp3 : Bool) (proc : ProcRun) : List Record × Bool :=
  match info with
  | .err msg => ([initialRecord, ⟨"error", none, some msg⟩], false)
  | .ok formats =>
      match formats.find? (fun f => f.format_id = format_id) with
      | none => ([initialRecord, ⟨"error", none, some "Format not found"⟩], false)
      | some fmt =>
          let is_audio := fmt.type = "audio"
          let r1 : Record :=
            if is_audio ∧ convert_to_mp3 then ⟨"converting to MP3", some (.finite 0), none⟩
            else ⟨"downloading", some (.finite 0), none⟩
          match proc with
          | .raiseAfter lines msg =>
              (initialRecord :: r1 :: (progressWrites r1 lines ++ [⟨"error", none, some msg⟩]),
               true)
          | .exit lines rc =>
              let final : Record :=
                if rc = 0 then ⟨"completed", some (.finite 100), none⟩
                else ⟨"error", none, some "Download failed"⟩
              (initialRecord :: r1 :: (progressWrites r1 lines ++ [final]), true)

/-! ## The HTTP boundary -/

/-- `GET /api/status/<download_id>` (lines 1052–1055):
`download_status.get(download_id, {"status": "not_found"})`.  The
registry is modelled as the partial map the dict denotes. -/
def get_download_status (reg : String → Option Record) (download_id : String) : Record :=
  match reg download_id with
  | some r => r
  | none => ⟨"not_found", none, none⟩

/-- Python truthiness of a JSON field read with `data.get(key)` when the
client sends strings: `None` (absent) and `""` are falsy. -/
def truthy : Option String → Bool
  | none => false
  | some s => s ≠ ""

/-- A scheduled background call to `download_video` (the `threading.Thread`
target with its arguments). -/
structure WorkerCall where
  url : String
  format_id : String
  download_id : String
  convert_to_mp3 : Bool
  deriving DecidableEq, Repr

/-- The `POST /api/download` route (lines 1031–1050), with the three
string fields as the client sends them (`none` = key absent from the
JSON body).  Returns the HTTP status code, the JSON success flag, the
background worker call it scheduled (if any), and the registry as it
stands when the response is sent — the route itself never writes to the
registry, and on the reject branch no worker is ever started. -/
def api_download (reg : String → Option Record)
    (url format_id download_id : Option String) (convert_to_mp3 : Bool) :
    (Nat × Bool) × Option WorkerCall × (String → Option Record) :=
  if truthy url && truthy format_id && truthy download_id then
    ((200, true),
     some ⟨url.getD "", format_id.getD "", download_id.getD "", convert_to_mp3⟩,
     reg)
  else
    ((400, false), none, reg)

/-- The `progress` value a record may carry, judged against the spec's
`[0,100]` percentage range: an absent key is unconstrained, a finite
value must lie in the closed interval, and the non-finite floats are out
of range. -/
def inRange : Option PyFloat → Bool
  | none => true
  | some (.finite q) => decide (0 ≤ q ∧ q ≤ 100)
  | some _ => false

/-! ## Basic lemmas about the embedded string primitives -/

theorem containsSeq_singleton_iff (c : Char) (cs : List Char) :
    containsSeq [c] cs = true ↔ c ∈ cs := by
  unfold containsSeq
  rw [List.any_eq_true]
  constructor
  · rintro ⟨i, -, hpre⟩
    rw [List.isPrefixOf_iff_prefix] at hpre
    exact List.mem_of_mem_drop (hpre.subset (List.mem_singleton_self c))
  · intro hmem
    rcases List.mem_iff_getElem.mp hmem with ⟨i, hi, hget⟩
    refine ⟨i, List.mem_range.mpr (Nat.lt_succ_of_lt hi), ?_⟩
    rw [List.isPrefixOf_iff_prefix, List.drop_eq_getElem_cons hi, hget]
    exact ⟨_, rfl⟩

theorem mem_of_mem_pySplitAux (cur cs t : List Char)
    (ht : t ∈ pySplitAux cur cs) : ∀ c ∈ t, c ∈ cur ∨ c ∈ cs := by
  induction cs generalizing cur with
  | nil =>
      unfold pySplitAux at ht
      split at ht
      · simp at ht
      · intro c hc
        rw [List.mem_singleton] at ht
        subst ht
        exact Or.inl (List.mem_reverse.mp hc)
  | cons a as ih =>
      unfold pySplitAux at ht
      split at ht
      · split at ht
        · intro c hc
          rcases ih [] ht c hc with h | h
          · simp at h
          · exact Or.inr (List.mem_cons_of_mem a h)
        · rw [List.mem_cons] at ht
          rcases ht with ht | ht
          · intro c hc
            subst ht
            exact Or.inl (List.mem_reverse.mp hc)
          · intro c hc
            rcases ih [] ht c hc with h | h
            · simp at h
            · exact Or.inr (List.mem_cons_of_mem a h)
      · intro c hc
        rcases ih (a :: cur) ht c hc with h | h
        · rw [List.mem_cons] at h
          rcases h with h | h
          · exact Or.inr (h ▸ List.mem_cons_self a as)
          · exact Or.inl h
        · exact Or.inr (List.mem_cons_of_mem a h)

theorem mem_of_mem_pySplit (cs t : List Char) (ht : t ∈ pySplit cs) :
    ∀ c ∈ t, c ∈ cs := by
  intro c hc
  rcases mem_of_mem_pySplitAux [] cs t ht c hc with h | h
  · simp at h
  · exact h

theorem pySplit_find?_pct_eq_none (cs : List Char) (h : '%' ∉ cs) :
    (pySplit cs).find? (fun part => part.contains '%') = none := by
  rw [List.find?_eq_none]
  intro t ht hcont
  exact h (mem_of_mem_pySplit cs t ht '%' (List.elem_iff.mp hcont))

theorem parseProgressLine_eq_amendedParse (line : List Char) :
    parseProgressLine line = amendedParse line := by
  unfold parseProgressLine amendedParse
  by_cases h1 : containsSeq markerChars line = true
  · by_cases h2 : containsSeq ['%'] line = true
    · simp [h1, h2]
    · have hmem : '%' ∉ line := fun hm =>
        h2 ((containsSeq_singleton_iff '%' line).mpr hm)
      rw [pySplit_find?_pct_eq_none line hmem]
      simp [h1, h2]
  · simp [h1]

/-! ## Lemmas about the worker's write history -/

theorem getLast?_cons_cons_concat {α : Type} (a b f : α) (l : List α) :
    (a :: b :: (l ++ [f])).getLast? = some f := by
  rw [show a :: b :: (l ++ [f]) = (a :: b :: l) ++ [f] from rfl, List.getLast?_concat]

theorem status_of_mem_progressWrites (r : Record) (ls : List (List Char)) :
    ∀ s ∈ progressWrites r ls, s.status = r.status := by
  induction ls generalizing r with
  | nil => simp [progressWrites]
  | cons l ls ih =>
      intro s hs
      unfold progressWrites at hs
      split at hs
      · rename_i p hp
        rw [List.mem_cons] at hs
        rcases hs with hs | hs
        · subst hs; rfl
        · exact ih { r with progress := some p } s hs
      · exact ih r s hs

theorem progress_of_mem_progressWrites (r : Record) (ls : List (List Char)) :
    ∀ s ∈ progressWrites r ls, ∃ l ∈ ls, s.progress = parseProgressLine l := by
  induction ls generalizing r with
  | nil => simp [progressWrites]
  | cons l ls ih =>
      intro s hs
      unfold progressWrites at hs
      split at hs
      · rename_i p hp
        rw [List.mem_cons] at hs
        rcases hs with hs | hs
        · exact ⟨l, List.mem_cons_self l ls, by rw [hs, hp]⟩
        · rcases ih _ s hs with ⟨l', hl', hp'⟩
          exact ⟨l', List.mem_cons_of_mem l hl', hp'⟩
      · rename_i hp
        rcases ih r s hs with ⟨l', hl', hp'⟩
        exact ⟨l', List.mem_cons_of_mem l hl', hp'⟩

theorem download_video_raise_getLast? (formats : List Fmt) (fid : String) (fmt : Fmt)
    (conv : Bool) (lines : List (List Char)) (msg : String)
    (hfind : formats.find? (fun f => f.format_id = fid) = some fmt) :
    (download_video (.ok formats) fid conv (.raiseAfter lines msg)).1.getLast? =
      some ⟨"error", none, some msg⟩ := by
  simp only [download_video, hfind]
  exact getLast?_cons_cons_concat _ _ _ _

theorem download_video_exit_getLast? (formats : List Fmt) (fid : String) (fmt : Fmt)
    (conv : Bool) (lines : List (List Char)) (rc : Int)
    (hfind : formats.find? (fun f => f.format_id = fid) = some fmt) :
    (download_video (.ok formats) fid conv (.exit lines rc)).1.getLast? =
      some (if rc = 0 then ⟨"completed", some (.finite 100), none⟩
            else ⟨"error", none, some "Download failed"⟩) := by
  simp only [download_video, hfind]
  exact getLast?_cons_cons_concat _ _ _ _

/-! ## Claim theorems -/

/-- C1: every invocation of the download worker terminates with the last
record written for the job being terminal (`completed`, or the code's
`"error"` for the spec's `failed`); a metadata-lookup error and any
exception raised at process launch or while streaming output are
recorded as an `error` record carrying the exception's textual
description, so no code path leaves the job in a `starting`/
`downloading`-style state. -/
theorem C1_worker_always_terminal (info : InfoResult) (fid : String) (conv : Bool)
    (proc : ProcRun) :
    (∃ r, (download_video info fid conv proc).1.getLast? = some r ∧
      (r.status = "completed" ∨ r.status = "error")) ∧
    (∀ msg, info = .err msg →
      (download_video info fid conv proc).1.getLast? = some ⟨"error", none, some msg⟩) ∧
    (∀ formats fmt lines msg, info = .ok formats →
      formats.find? (fun f => f.format_id = fid) = some fmt →
      proc = .raiseAfter lines msg →
      (download_video info fid conv proc).1.getLast? = some ⟨"error", none, some msg⟩) := by
  cases info with
  | err msg =>
      refine ⟨⟨⟨"error", none, some msg⟩, by simp [download_video], Or.inr rfl⟩, ?_, ?_⟩
      · intro msg' h
        cases h
        simp [download_video]
      · intro _ _ _ _ h
        cases h
  | ok formats =>
      cases hfind : formats.find? (fun f => f.format_id = fid) with
      | none =>
          refine ⟨⟨⟨"error", none, some "Format not found"⟩, ?_, Or.inr rfl⟩, ?_, ?_⟩
          · simp [download_video, hfind]
          · intro _ h
            cases h
          · intro formats' fmt lines msg hinfo hfind' hproc
            cases hinfo
            rw [hfind] at hfind'
            cases hfind'
      | some fmt =>
          cases proc with
          | raiseAfter lines msg =>
              have hlast := download_video_raise_getLast? formats fid fmt conv lines msg hfind
              refine ⟨⟨⟨"error", none, some msg⟩, hlast, Or.inr rfl⟩, ?_, ?_⟩
              · intro _ h
                cases h
              · intro formats' fmt' lines' msg' hinfo hfind' hproc
                cases hinfo
                cases hproc
                exact hlast
          | exit lines rc =>
              have hlast := download_video_exit_getLast? formats fid fmt conv lines rc hfind
              refine ⟨⟨_, hlast, ?_⟩, ?_, ?_⟩
              · by_cases h : rc = 0 <;> simp [h]
              · intro _ h
                cases h
              · intro _ _ _ _ _ _ hproc
                cases hproc

/-- C1 witness: a concrete run in which the process raises `"boom"` after
launch ends with an `error` record carrying exactly that message. -/
theorem C1_witness :
    (download_video (.ok [⟨"f1", "video"⟩]) "f1" false
        (.raiseAfter [] "boom")).1.getLast? = some ⟨"error", none, some "boom"⟩ :=
  (C1_worker_always_terminal (.ok [⟨"f1", "video"⟩]) "f1" false
      (.raiseAfter [] "boom")).2.2 [⟨"f1", "video"⟩] ⟨"f1", "video"⟩ [] "boom"
    rfl (by decide) rfl

/-- C2 counterexample: on `"[download] x% 50.0% of 10MiB"` the claim's
parser (first percent-sign-suffixed *numeric* token, scanning left to
right) yields `50.0`, but the code yields no update: the first piece
containing `%` is `"x%"`, `float("x")` raises, and the `except` aborts
the whole scan. -/
theorem C2_counterexample :
    parseProgressLine "[download] x% 50.0% of 10MiB".toList = none ∧
    claimParse "[download] x% 50.0% of 10MiB".toList = some (.finite 50) := by
  decide

/-- C2 (amended): a line yields an update exactly when it contains the
`"[download]"` marker and its *first* whitespace-delimited piece
containing a percent sign, with all percent signs removed, parses as a
Python float (the value being that parse); all other lines — including
malformed or partial percentage tokens — yield no update and never an
error.  The spec's three examples behave as stated. -/
theorem C2_parser_amended :
    (∀ line, parseProgressLine line = amendedParse line) ∧
    parseProgressLine "[download]  42.0% of 10.00MiB".toList = some (.finite 42) ∧
    parseProgressLine "Merging formats...".toList = none ∧
    parseProgressLine "[download]  %".toList = none :=
  ⟨parseProgressLine_eq_amendedParse, by decide, by decide, by decide⟩

/-- C3: once the external process runs, the final record is a function of
the exit code alone: zero yields `completed` with `progress = 100`
regardless of the progress values observed, and any non-zero code yields
the `error` status with the generic `"Download failed"` message. -/
theorem C3_exit_code_final (formats : List Fmt) (fid : String) (fmt : Fmt) (conv : Bool)
    (lines : List (List Char)) (rc : Int)
    (hfind : formats.find? (fun f => f.format_id = fid) = some fmt) :
    (download_video (.ok formats) fid conv (.exit lines rc)).1.getLast? =
      some (if rc = 0 then ⟨"completed", some (.finite 100), none⟩
            else ⟨"error", none, some "Download failed"⟩) :=
  download_video_exit_getLast? formats fid fmt conv lines rc hfind

/-- C3 witness: a run that reported `55.5%` and exited with code 0 ends
`completed` with `progress = 100`. -/
theorem C3_witness :
    (download_video (.ok [⟨"f1", "video"⟩]) "f1" false
        (.exit ["[download] 55.5% of 10MiB".toList] 0)).1.getLast? =
      some ⟨"completed", some (.finite 100), none⟩ :=
  C3_exit_code_final [⟨"f1", "video"⟩] "f1" ⟨"f1", "video"⟩ false
    ["[download] 55.5% of 10MiB".toList] 0 (by decide)

/-- C4 counterexample: in a run that observed progress `42.0` and whose
process exits with code 1, the final record is a fresh
`{"status": "error", "message": "Download failed"}` dict with *no*
`progress` key at all — the last observed value `42.0` is not preserved
in the final record, contradicting "its progress field is unchanged from
the last value observed". -/
theorem C4_counterexample :
    ((download_video (.ok [⟨"f1", "video"⟩]) "f1" false
        (.exit ["[download] 42.0% of 10MiB".toList] 1)).1.map Record.progress)[2]? =
      some (some (.finite 42)) ∧
    (download_video (.ok [⟨"f1", "video"⟩]) "f1" false
        (.exit ["[download] 42.0% of 10MiB".toList] 1)).1.getLast? =
      some ⟨"error", none, some "Download failed"⟩ := by
  decide

/-- C4 (amended): on a non-zero exit code the final queried record is
exactly `{"status": "error", "message": "Download failed"}`: the status
is the failed one, and the record carries no `progress` key — the last
observed progress value is discarded rather than preserved (and in
particular not forced to 0 or 100). -/
theorem C4_amended_failed_record (formats : List Fmt) (fid : String) (fmt : Fmt)
    (conv : Bool) (lines : List (List Char)) (rc : Int)
    (hfind : formats.find? (fun f => f.format_id = fid) = some fmt) (hrc : rc ≠ 0) :
    (download_video (.ok formats) fid conv (.exit lines rc)).1.getLast? =
      some ⟨"error", none, some "Download failed"⟩ := by
  rw [download_video_exit_getLast? formats fid fmt conv lines rc hfind, if_neg hrc]

/-- C4 witness: the amended statement at a concrete non-zero exit. -/
theorem C4_witness :
    (download_video (.ok [⟨"f1", "video"⟩]) "f1" false
        (.exit ["[download] 42.0% of 10MiB".toList] 1)).1.getLast? =
      some ⟨"error", none, some "Download failed"⟩ :=
  C4_amended_failed_record [⟨"f1", "video"⟩] "f1" ⟨"f1", "video"⟩ false
    ["[download] 42.0% of 10MiB".toList] 1 (by decide) (by decide)

/-- C5: a requested `format_id` absent from the metadata's format list
makes the worker write exactly one further record — the `error` record
with message `"Format not found"` — and return without ever reaching the
process launch (the launched flag is `false`), with no retry. -/
theorem C5_missing_format (formats : List Fmt) (fid : String) (conv : Bool) (proc : ProcRun)
    (hfind : formats.find? (fun f => f.format_id = fid) = none) :
    download_video (.ok formats) fid conv proc =
      ([initialRecord, ⟨"error", none, some "Format not found"⟩], false) := by
  simp only [download_video, hfind]

/-- C5 witness: a concrete request for a format id that the metadata does
not offer. -/
theorem C5_witness :
    download_video (.ok [⟨"f2", "video"⟩]) "f1" false (.exit [] 0) =
      ([initialRecord, ⟨"error", none, some "Format not found"⟩], false) :=
  C5_missing_format [⟨"f2", "video"⟩] "f1" false (.exit [] 0) (by decide)

/-- C6 counterexample: with `convert_to_mp3 = true` but a format whose
classification is `"video"`, the status record written before launching
the process is `"downloading"`, not the converting-style status — so the
converting-style display is *not* selected "exactly when conversion is
requested by the caller". -/
theorem C6_counterexample :
    ((download_video (.ok [⟨"f1", "video"⟩]) "f1" true (.exit [] 0)).1[1]?).map
        Record.status = some "downloading" ∧
    some "downloading" ≠ some "converting to MP3" := by
  decide

/-- C6 (amended): the worker's first write is always the
`{"status": "starting", "progress": 0}` record, and the pre-launch
status record (the second write, present whenever the format lookup
succeeds) has `progress = 0` and selects the converting-style status
exactly when conversion is requested *and* the chosen format is
classified audio; otherwise it is the plain `"downloading"` status. -/
theorem C6_amended_initial_status (info : InfoResult) (fid : String) (conv : Bool)
    (proc : ProcRun) :
    (download_video info fid conv proc).1[0]? = some initialRecord ∧
    (∀ formats fmt, info = .ok formats →
      formats.find? (fun f => f.format_id = fid) = some fmt →
      (download_video info fid conv proc).1[1]? =
        some (if fmt.type = "audio" ∧ conv = true
              then ⟨"converting to MP3", some (.finite 0), none⟩
              else ⟨"downloading", some (.finite 0), none⟩) ∧
      (((download_video info fid conv proc).1[1]?).map Record.status =
          some "converting to MP3" ↔ (fmt.type = "audio" ∧ conv = true))) := by
  constructor
  · cases info with
    | err msg => simp [download_video]
    | ok formats =>
        cases hfind : formats.find? (fun f => f.format_id = fid) with
        | none => simp [download_video, hfind]
        | some fmt => cases proc <;> simp [download_video, hfind]
  · intro formats fmt hinfo hfind
    cases hinfo
    by_cases hc : fmt.type = "audio" ∧ conv = true
    · cases proc <;> simp [download_video, hfind, hc]
    · cases proc <;> simp [download_video, hfind, hc]

/-- C6 witness: an audio format with conversion requested gets the
converting-style status on the second write. -/
theorem C6_witness :
    ((download_video (.ok [⟨"f1", "audio"⟩]) "f1" true (.exit [] 0)).1[1]?).map
      Record.status = some "converting to MP3" :=
  (((C6_amended_initial_status (.ok [⟨"f1", "audio"⟩]) "f1" true (.exit [] 0)).2
      [⟨"f1", "audio"⟩] ⟨"f1", "audio"⟩ rfl (by decide)).2).mpr ⟨rfl, rfl⟩

/-- C7: querying an identifier that was never written returns the
`not_found` sentinel record, and the sentinel is query-time only: no
record the worker ever writes carries the `not_found` status. -/
theorem C7_not_found_query (reg : String → Option Record) (id : String)
    (h : reg id = none) :
    get_download_status reg id = ⟨"not_found", none, none⟩ ∧
    (∀ info fid conv proc r, r ∈ (download_video info fid conv proc).1 →
      r.status ≠ "not_found") := by
  refine ⟨by unfold get_download_status; rw [h], ?_⟩
  intro info fid conv proc r hr
  cases info with
  | err msg =>
      simp [download_video] at hr
      rcases hr with rfl | rfl <;> simp [initialRecord]
  | ok formats =>
      cases hfind : formats.find? (fun f => f.format_id = fid) with
      | none =>
          simp [download_video, hfind] at hr
          rcases hr with rfl | rfl <;> simp [initialRecord]
      | some fmt =>
          cases proc with
          | raiseAfter lines msg =>
              simp [download_video, hfind] at hr
              rcases hr with rfl | rfl | hr | rfl
              · simp [initialRecord]
              · split <;> simp
              · rw [status_of_mem_progressWrites _ lines r hr]
                split <;> simp
              · simp
          | exit lines rc =>
              simp [download_video, hfind] at hr
              rcases hr with rfl | rfl | hr | rfl
              · simp [initialRecord]
              · split <;> simp
              · rw [status_of_mem_progressWrites _ lines r hr]
                split <;> simp
              · split <;> simp

/-- C7 witness: the query on an empty registry. -/
theorem C7_witness :
    get_download_status (fun _ => none) "nope" = ⟨"not_found", none, none⟩ :=
  (C7_not_found_query (fun _ => none) "nope" rfl).1

/-- C8 counterexample: the worker applies whatever percentage it parses
with no clamping, so the output line `"[download] 150.0% of x"` puts
`150.0` — outside `[0,100]` — into the stored record's progress field. -/
theorem C8_counterexample :
    ((download_video (.ok [⟨"f1", "video"⟩]) "f1" false
        (.exit ["[download] 150.0% of x".toList] 0)).1.map Record.progress)[2]? =
      some (some (.finite 150)) ∧
    inRange (some (.finite 150)) = false := by
  decide

/-- C8 (amended): whenever every progress value the parser extracts from
the process output lies in `[0,100]` (as yt-dlp's well-formed output
does), every record the worker stores has its progress in `[0,100]` —
records without a progress key are unconstrained. -/
theorem C8_amended_progress_range (info : InfoResult) (fid : String) (conv : Bool)
    (proc : ProcRun)
    (hlines : ∀ l ∈ proc.lines, inRange (parseProgressLine l) = true) :
    ∀ r ∈ (download_video info fid conv proc).1, inRange r.progress = true := by
  intro r hr
  cases info with
  | err msg =>
      simp [download_video] at hr
      rcases hr with rfl | rfl
      · decide
      · rfl
  | ok formats =>
      cases hfind : formats.find? (fun f => f.format_id = fid) with
      | none =>
          simp [download_video, hfind] at hr
          rcases hr with rfl | rfl
          · decide
          · rfl
      | some fmt =>
          cases proc with
          | raiseAfter lines msg =>
              simp [download_video, hfind] at hr
              rcases hr with rfl | rfl | hr | rfl
              · decide
              · split <;> decide
              · obtain ⟨l, hl, hp⟩ := progress_of_mem_progressWrites _ lines r hr
                rw [hp]
                exact hlines l hl
              · rfl
          | exit lines rc =>
              simp [download_video, hfind] at hr
              rcases hr with rfl | rfl | hr | rfl
              · decide
              · split <;> decide
              · obtain ⟨l, hl, hp⟩ := progress_of_mem_progressWrites _ lines r hr
                rw [hp]
                exact hlines l hl
              · split <;> decide

/-- C8 witness: in a run whose only progress line reports `42.0%`, the
stored snapshot with progress `42.0` is within range. -/
theorem C8_witness :
    inRange (Record.progress ⟨"downloading", some (.finite 42), none⟩) = true :=
  C8_amended_progress_range (.ok [⟨"f1", "video"⟩]) "f1" false
    (.exit ["[download] 42.0% of 10MiB".toList] 0) (by decide)
    ⟨"downloading", some (.finite 42), none⟩ (by decide)

/-- C10: a `POST /api/download` in which `url`, `format_id` or
`download_id` is absent or the empty string is answered with HTTP 400
and an error body, no background worker is started, and the registry is
returned untouched (so no record is created for the identifier). -/
theorem C10_reject_missing_params (reg : String → Option Record)
    (url format_id download_id : Option String) (conv : Bool)
    (h : url = none ∨ url = some "" ∨ format_id = none ∨ format_id = some "" ∨
         download_id = none ∨ download_id = some "") :
    api_download reg url format_id download_id conv = ((400, false), none, reg) := by
  unfold api_download
  rcases h with h | h | h | h | h | h <;> subst h <;> simp [truthy]

/-- C10 witness: a request missing its `format_id`. -/
theorem C10_witness :
    api_download (fun _ => none) (some "https://x") none (some "d1") false =
      ((400, false), none, fun _ => none) :=
  C10_reject_missing_params (fun _ => none) (some "https://x") none (some "d1") false
    (Or.inr (Or.inr (Or.inl rfl)))

end YouLoader
